import Mathlib

/-!
Shallow embedding of the micropod host-side orchestrator (Go) and proofs
about it.  Strings are modelled as lists of characters (Go iterates runes);
file contents likewise.  External effects (exec, file IO, network dials)
are modelled as explicit traces or boolean oracles passed in as arguments.
-/

deriving instance DecidableEq for Except

namespace Micropod

/-- Strings are modelled as lists of characters. -/
abbrev Str := List Char

/-! ## VM registry (package `state`, `src/unnamed/part_001`) -/

/-- A VM record as stored in the registry JSON document
(struct `VM` in package `state`). `time.Time` is modelled as a `Nat`
timestamp. -/
structure VMRec where
  id : Str
  imageName : Str
  state : Str
  firecrackerPid : Int
  vmSocketPath : Str
  rootfsPath : Str
  kernelPath : Str
  createdAt : Nat
deriving DecidableEq, Repr

/-- The registry error message `fmt.Errorf("VM with ID %s not found", id)`. -/
def notFoundMsg (id : Str) : Str :=
  "VM with ID ".toList ++ id ++ " not found".toList

/-- `Store.AddVM`: load, append the record, save.  With file IO succeeding
it always succeeds; there is no duplicate-id check in the source. -/
def addVM (vms : List VMRec) (vm : VMRec) : Except Str (List VMRec) :=
  .ok (vms ++ [vm])

/-- `Store.GetVM`: linear scan for the first record with the given id;
`VM with ID %s not found` otherwise. -/
def getVM (vms : List VMRec) (id : Str) : Except Str VMRec :=
  match vms.find? (fun vm => vm.id = id) with
  | some vm => .ok vm
  | none => .error (notFoundMsg id)

/-- `Store.RemoveVM`: keep every record whose id differs; error when no
record matched. -/
def removeVM (vms : List VMRec) (id : Str) : Except Str (List VMRec) :=
  let updated := vms.filter (fun vm => vm.id ≠ id)
  if vms.any (fun vm => vm.id = id) then .ok updated
  else .error (notFoundMsg id)

/-- `Store.UpdateVMState`: set the `State` field of the first record with
the given id; error when none matched. -/
def updateVMState (vms : List VMRec) (id : Str) (st : Str) :
    Except Str (List VMRec) :=
  match vms with
  | [] => .error (notFoundMsg id)
  | vm :: rest =>
    if vm.id = id then .ok ({ vm with state := st } :: rest)
    else match updateVMState rest id st with
      | .ok rest' => .ok (vm :: rest')
      | .error e => .error e

/-! ### Registry persistence (`Store.saveVMs`) as a trace of file operations -/

/-- Primitive file-system operations a registry save can issue. -/
inductive FileOp where
  | write (path : Str) (data : Str)
  | rename (src : Str) (dst : Str)
deriving DecidableEq, Repr

/-- Whether a file operation is a rename. -/
def FileOp.isRename : FileOp → Bool
  | .write _ _ => false
  | .rename _ _ => true

/-- `Store.saveVMs` marshals the records and calls
`os.WriteFile(s.filePath, data, 0644)`: a single direct write to the
registry path, with no temporary sibling file and no rename.
`data` stands for the marshalled JSON document. -/
def saveVMsOps (filePath : Str) (data : Str) : List FileOp :=
  [FileOp.write filePath data]

/-- Contents observable in the target file if execution is interrupted at
an arbitrary point during a direct (non-atomic) write: every prefix of the
data may have reached the disk. -/
def directWriteCrashContents (data : Str) : List Str :=
  (List.range (data.length + 1)).map (fun k => data.take k)

/-! ## VM controller (`src/pkg/manager/manager.go`) -/

/-- `Manager.StopVM`: look the record up (propagating `VM not found` on
failure), kill the process if it is still running, run best-effort cleanup
(failures only logged), then remove the record from the registry.
`runningPid` is the liveness oracle behind `isProcessRunning`. -/
def stopVM (_runningPid : Int → Bool) (vms : List VMRec) (id : Str) :
    Except Str (List VMRec) :=
  match getVM vms id with
  | .error e => .error ("VM not found: ".toList ++ e)
  | .ok _ => removeVM vms id

/-- Retry constants of `Manager.connectToAgent`. -/
def maxRetries : Nat := 30

/-- `retryInterval` of `connectToAgent`, in seconds. -/
def retryIntervalSeconds : Nat := 1

/-- `connectionTimeout` of `connectToAgent`, in seconds. -/
def connectionTimeoutSeconds : Nat := 5

/-- The error returned by `connectToAgent` when every attempt failed:
`failed to connect to agent after %d attempts, last error: %w`. -/
def agentExhaustedMsg : Str :=
  "failed to connect to agent after 30 attempts".toList

/-- The retry loop of `Manager.connectToAgent`: attempts are numbered from
1; `dialOk n` tells whether attempt `n` establishes and passes the
connection test.  On success the attempt number is returned; after
`maxRetries` failures the exhaustion error is returned. -/
def connectAttempts (dialOk : Nat → Bool) : Nat → Nat → Except Str Nat
  | _, 0 => .error agentExhaustedMsg
  | attempt, fuel + 1 =>
    if dialOk attempt then .ok attempt
    else connectAttempts dialOk (attempt + 1) fuel

/-- `Manager.connectToAgent` with an uncancelled context. -/
def connectToAgent (dialOk : Nat → Bool) : Except Str Nat :=
  connectAttempts dialOk 1 maxRetries

/-- Outcome oracles for one `RunVM` invocation: whether each external step
succeeds.  `dialOk` is per-attempt as in `connectToAgent`. -/
structure RunEnv where
  networkOk : Bool
  pullOk : Bool
  unpackOk : Bool
  launchOk : Bool
  dialOk : Nat → Bool
  createContainerRunning : Bool
  addOk : Bool

/-- Observable state when `RunVM` returns: its result, whether the
network setup is still in place, whether the unpacked rootfs directory
still exists, whether the Firecracker process is still running, and the
final registry contents (as a list of ids). -/
structure RunOutcome where
  result : Except Str Str
  networkUp : Bool
  unpackedExists : Bool
  fcRunning : Bool
  registry : List Str
deriving DecidableEq, Repr

/-- `Manager.RunVM` as a sequence of steps with the cleanup each failure
branch performs in the source: network failure creates nothing; pull and
unpack failures tear the network down; launch failure also removes the
unpacked directory; agent-dial and container-start failures tear the
network down and remove the unpacked directory but do NOT stop the
Firecracker process; a registry-commit failure stops the process too. -/
def runVM (env : RunEnv) (vmID : Str) (reg : List Str) : RunOutcome :=
  if !env.networkOk then
    ⟨.error "failed to setup network".toList, false, false, false, reg⟩
  else if !env.pullOk then
    ⟨.error "failed to pull image".toList, false, false, false, reg⟩
  else if !env.unpackOk then
    ⟨.error "failed to unpack image".toList, false, true, false, reg⟩
  else if !env.launchOk then
    ⟨.error "failed to launch VM".toList, false, false, false, reg⟩
  else
    match connectToAgent env.dialOk with
    | .error e =>
      ⟨.error ("failed to connect to agent: ".toList ++ e),
        false, false, true, reg⟩
    | .ok _ =>
      if !env.createContainerRunning then
        ⟨.error "container failed to start in guest".toList,
          false, false, true, reg⟩
      else if !env.addOk then
        ⟨.error "failed to store VM state".toList, false, false, false, reg⟩
      else
        ⟨.ok vmID, true, true, true, reg ++ [vmID]⟩

/-! ## Network provisioner (package `network`, `src/unnamed/part_006`) -/

/-- `strings.Split s sep` for a single-character separator: splitting the
empty string yields `[[]]`, and every separator starts a new field. -/
def splitOnChar (sep : Char) : Str → List Str
  | [] => [[]]
  | c :: rest =>
    if c = sep then [] :: splitOnChar sep rest
    else match splitOnChar sep rest with
      | [] => [[c]]
      | p :: ps => (c :: p) :: ps

/-- Value of a decimal digit character. -/
def digitVal (c : Char) : Option Nat :=
  if c.isDigit then some (c.toNat - 48) else none

/-- Parse a non-empty all-digit run into a natural number. -/
def parseDigits : Str → Option Nat
  | [] => none
  | cs => go cs 0
where
  go : Str → Nat → Option Nat
    | [], acc => some acc
    | c :: rest, acc =>
      match digitVal c with
      | some d => go rest (acc * 10 + d)
      | none => none

/-- `strconv.Atoi`: an optional leading sign followed by at least one
decimal digit, with the result confined to the 64-bit `int` range
(out-of-range input is an error). -/
def atoi (s : Str) : Option Int :=
  match s with
  | [] => none
  | c :: rest =>
    if c = '+' then
      (parseDigits rest).bind fun n =>
        if n ≤ 2 ^ 63 - 1 then some (Int.ofNat n) else none
    else if c = '-' then
      (parseDigits rest).bind fun n =>
        if n ≤ 2 ^ 63 then some (-(Int.ofNat n)) else none
    else
      (parseDigits (c :: rest)).bind fun n =>
        if n ≤ 2 ^ 63 - 1 then some (Int.ofNat n) else none

/-- Go map assignment `m[k] = v` on an association-list model: replace the
binding if the key is present, otherwise append it. -/
def mapSet : List (Int × Int) → Int → Int → List (Int × Int)
  | [], k, v => [(k, v)]
  | (k', v') :: rest, k, v =>
    if k' = k then (k, v) :: rest else (k', v') :: mapSet rest k v

/-- Go map lookup `m[k]` on the association-list model. -/
def mapGet : List (Int × Int) → Int → Option Int
  | [], _ => none
  | (k', v') :: rest, k => if k' = k then some v' else mapGet rest k

/-- The loop body of `parsePortMappings`, threading the result map. -/
def parsePortMappingsGo : List Str → List (Int × Int) →
    Except Str (List (Int × Int))
  | [], result => .ok result
  | m :: rest, result =>
    match splitOnChar ':' m with
    | [a, b] =>
      match atoi a with
      | none => .error ("invalid host port: ".toList ++ a)
      | some h =>
        match atoi b with
        | none => .error ("invalid guest port: ".toList ++ b)
        | some g => parsePortMappingsGo rest (mapSet result h g)
    | _ => .error ("invalid port mapping format: ".toList ++ m)

/-- `parsePortMappings`: iterate over the list, splitting each entry on
`:`, requiring exactly two integer-parseable fields, and assigning
`result[hostPort] = guestPort`. -/
def parsePortMappings (mappings : List Str) : Except Str (List (Int × Int)) :=
  parsePortMappingsGo mappings []

/-- Specification helper: the guest port of the LAST entry in the input
list whose host port parses to `k` (scanning from the right). -/
def lastHostDef (mappings : List Str) (k : Int) : Option Int :=
  match mappings with
  | [] => none
  | m :: rest =>
    match lastHostDef rest k with
    | some g => some g
    | none =>
      match splitOnChar ':' m with
      | [a, b] =>
        match atoi a, atoi b with
        | some h, some g => if h = k then some g else none
        | _, _ => none
      | _ => none

/-- `hashVMID`: fold `hash = (hash*31 + int(char)) % 254` over the runes
of the id (Go `%` truncates, modelled by `Int.tmod`), then negate if
negative. -/
def hashVMID (vmID : Str) : Int :=
  let hash := go vmID 0
  if hash < 0 then -hash else hash
where
  go : Str → Int → Int
    | [], hash => hash
    | c :: rest, hash => go rest (Int.tmod (hash * 31 + Int.ofNat c.toNat) 254)

/-- Decimal rendering of a natural number (`fmt.Sprintf "%d"`). -/
def natDec (n : Nat) : Str := Nat.toDigits 10 n

/-- `fmt.Sprintf "%02x"`: lowercase hexadecimal, zero-padded to width 2
(adequate for values below 256). -/
def hex2 (n : Nat) : Str :=
  let ds := Nat.toDigits 16 n
  if ds.length = 1 then '0' :: ds else ds

/-- The network configuration assigned by `network.Setup` (its pure
field computation, before the tap/iptables side effects): tap name from
the first 8 characters of the id, index `hashVMID(id) % 254 + 1`, guest
`172.18.i.2`, gateway `172.18.i.1`, MAC `02:FC:00:00:i:i` in hex, and the
parsed port mappings. -/
structure NetConfig where
  vmID : Str
  tapDevice : Str
  guestIP : Str
  gatewayIP : Str
  mask : Str
  guestMAC : Str
  portMappings : List (Int × Int)
deriving DecidableEq, Repr

/-- `network.Setup`'s configuration computation.  Requires `8 ≤ |id|` as
Go's `vmID[:8]` panics on shorter ids.  Fails when the port mappings do
not parse. -/
def setupConfig (vmID : Str) (portMappings : List Str) :
    Except Str NetConfig :=
  let vmIndex := Int.tmod (hashVMID vmID) 254 + 1
  match parsePortMappings portMappings with
  | .error e => .error ("failed to parse port mappings: ".toList ++ e)
  | .ok pm =>
    .ok { vmID := vmID
          tapDevice := "tap-".toList ++ vmID.take 8
          guestIP := "172.18.".toList ++ natDec vmIndex.toNat ++ ".2".toList
          gatewayIP := "172.18.".toList ++ natDec vmIndex.toNat ++ ".1".toList
          mask := "24".toList
          guestMAC := "02:FC:00:00:".toList ++ hex2 vmIndex.toNat ++
            [':'] ++ hex2 vmIndex.toNat
          portMappings := pm }

/-- The index `hashVMID(id) % 254 + 1` computed by `Setup`. -/
def vmIndexOf (vmID : Str) : Int := Int.tmod (hashVMID vmID) 254 + 1

/-! ## Image store (`src/pkg/image/manager.go`): pull / get -/

/-- A stored image manifest: its digest and ordered layer digests. -/
structure StoredImg where
  digest : Str
  layers : List Str
deriving DecidableEq, Repr

/-- The in-memory view `image{ref, digest, layers}` returned by
`PullImage`/`GetImage`. -/
structure ImgView where
  ref : Str
  digest : Str
  layers : List Str
deriving DecidableEq, Repr

/-- `getLayoutPath`'s sanitisation of a reference: replace `/` and `:`
by `_` (the fixed image directory prefix is left implicit since it is
common to every key). -/
def sanitizeLayoutKey (r : Str) : Str :=
  r.map (fun c => if c = '/' then '_' else if c = ':' then '_' else c)

/-- The local image store: for each layout key, the manifest list of the
layout's `index.json` in order. -/
abbrev ImgStore := List (Str × List StoredImg)

/-- Lookup in the image store. -/
def storeGet (st : ImgStore) (key : Str) : Option (List StoredImg) :=
  match st.find? (fun p => p.1 = key) with
  | some p => some p.2
  | none => none

/-- Replace-or-append update of the image store. -/
def storeSet : ImgStore → Str → List StoredImg → ImgStore
  | [], key, v => [(key, v)]
  | (k', v') :: rest, key, v =>
    if k' = key then (key, v) :: rest else (k', v') :: storeSet rest key v

/-- `Manager.GetImage`: fail when no layout exists for the ref or the
layout's index holds no manifest; otherwise return the view of the FIRST
manifest in the index. -/
def getImage (st : ImgStore) (r : Str) : Except Str ImgView :=
  match storeGet st (sanitizeLayoutKey r) with
  | none => .error ("image not found locally".toList)
  | some [] => .error ("no images found in layout".toList)
  | some (i :: _) => .ok ⟨r, i.digest, i.layers⟩

/-- `Manager.PullImage`: parse the reference; serve a locally stored image
without touching the network; otherwise fetch from the remote registry
(`crane.Pull`, modelled by the `remote` oracle), append the image to the
layout (creating it when absent) and return its view.  The result carries
the new store and the number of network fetches performed. -/
def pullImage (parseOk : Str → Bool) (remote : Str → Option StoredImg)
    (st : ImgStore) (r : Str) : Except Str ImgView × ImgStore × Nat :=
  if !parseOk r then
    (.error ("failed to parse image reference".toList), st, 0)
  else
    match getImage st r with
    | .ok v => (.ok v, st, 0)
    | .error _ =>
      match remote r with
      | none => (.error ("failed to pull image".toList), st, 1)
      | some img =>
        let key := sanitizeLayoutKey r
        let manifests := (storeGet st key).getD [] ++ [img]
        (.ok ⟨r, img.digest, img.layers⟩, storeSet st key manifests, 1)

/-! ## Image store: layer extraction (`Unpack` / `extractLayer`) -/

/-- `strings.HasPrefix`. -/
def listStartsWith : Str → Str → Bool
  | _, [] => true
  | [], _ :: _ => false
  | c :: cs, p :: ps => c = p && listStartsWith cs ps

/-- `strings.Contains hay needle`. -/
def listContainsSub (hay needle : Str) : Bool :=
  match hay with
  | [] => listStartsWith [] needle
  | _ :: rest => listStartsWith hay needle || listContainsSub rest needle

/-- Component normalisation of `path/filepath.Clean`: drop empty and `.`
components, resolve `..` against the stack (discarding it at the root of
an absolute path). -/
def cleanParts (isAbs : Bool) : List Str → List Str → List Str
  | out, [] => out.reverse
  | out, [] :: rest => cleanParts isAbs out rest
  | out, ['.'] :: rest => cleanParts isAbs out rest
  | out, ['.', '.'] :: rest =>
    match out with
    | [] => if isAbs then cleanParts isAbs [] rest
            else cleanParts isAbs [['.', '.']] rest
    | ['.', '.'] :: _ => cleanParts isAbs (['.', '.'] :: out) rest
    | _ :: out' => cleanParts isAbs out' rest
  | out, p :: rest => cleanParts isAbs (p :: out) rest

/-- Join path components with `/`. -/
def joinParts : List Str → Str
  | [] => []
  | [p] => p
  | p :: rest => p ++ '/' :: joinParts rest

/-- `path/filepath.Clean`. -/
def goClean (s : Str) : Str :=
  let isAbs := listStartsWith s ['/']
  let parts := cleanParts isAbs [] (splitOnChar '/' s)
  let body := joinParts parts
  if isAbs then '/' :: body
  else if body = [] then ['.'] else body

/-- `filepath.Join a b` = `Clean(a + "/" + b)`. -/
def goJoin (a b : Str) : Str := goClean (a ++ '/' :: b)

/-- `filepath.Dir`: the cleaned path with its last component removed. -/
def goDir (s : Str) : Str :=
  match (splitOnChar '/' (goClean s)).dropLast with
  | [] => ['.']
  | [[]] => ['/']
  | parts => joinParts parts

/-- A node of the extracted file tree. -/
inductive FSEntry where
  | dir
  | file (content : Str)
  | symlink (target : Str)
deriving DecidableEq, Repr

/-- The destination tree: a finite map from (cleaned, absolute) paths to
entries. -/
abbrev FS := List (Str × FSEntry)

/-- Map lookup on the file tree. -/
def fsGet (fs : FS) (p : Str) : Option FSEntry :=
  match fs.find? (fun e => e.1 = p) with
  | some e => some e.2
  | none => none

/-- Replace-or-append update of the file tree. -/
def fsSet : FS → Str → FSEntry → FS
  | [], p, e => [(p, e)]
  | (p', e') :: rest, p, e =>
    if p' = p then (p, e) :: rest else (p', e') :: fsSet rest p e

/-- The non-empty prefixes of a list, shortest first. -/
def listPrefixes : List Str → List (List Str)
  | [] => []
  | x :: xs => [x] :: (listPrefixes xs).map (fun p => x :: p)

/-- `os.MkdirAll`: create the directory and every missing ancestor; fail
when an existing ancestor is not a directory.  (File modes are elided.) -/
def mkdirAll (fs : FS) (d : Str) : Except Str FS :=
  go fs ((listPrefixes (splitOnChar '/' (goClean d))).map joinParts)
where
  go : FS → List Str → Except Str FS
    | fs, [] => .ok fs
    | fs, [] :: rest => go fs rest
    | fs, q :: rest =>
      match fsGet fs q with
      | some .dir => go fs rest
      | some _ => .error ("mkdir: not a directory".toList)
      | none => go (fsSet fs q .dir) rest

/-- Tar entry types handled by `extractLayer` (other types fall through
the `switch` and are ignored). -/
inductive TarType where
  | dir
  | reg
  | symlink
  | other
deriving DecidableEq, Repr

/-- A tar header plus its byte content as read by `extractLayer`. -/
structure TarEntry where
  name : Str
  typeflag : TarType
  content : Str
  linkname : Str
deriving DecidableEq, Repr

/-- One iteration of the `extractLayer` loop: entries whose name contains
`.wh.` are skipped with no further action; entries escaping `destPath`
(prefix check against `Clean(destPath) + "/"`) are skipped; directories
are created with `MkdirAll`; regular files are created (truncating any
existing file) after `MkdirAll` on their parent; symlinks are created
after `MkdirAll` on their parent, failing if the target path exists. -/
def extractEntry (destPath : Str) (fs : FS) (e : TarEntry) :
    Except Str FS :=
  if listContainsSub e.name ".wh.".toList then .ok fs
  else
    let target := goJoin destPath e.name
    if !listStartsWith target (goClean destPath ++ ['/']) then .ok fs
    else
      match e.typeflag with
      | .dir => mkdirAll fs target
      | .reg =>
        match mkdirAll fs (goDir target) with
        | .error err => .error err
        | .ok fs' => .ok (fsSet fs' target (.file e.content))
      | .symlink =>
        match mkdirAll fs (goDir target) with
        | .error err => .error err
        | .ok fs' =>
          match fsGet fs' target with
          | some _ => .error ("symlink: file exists".toList)
          | none => .ok (fsSet fs' target (.symlink e.linkname))
      | .other => .ok fs

/-- `extractLayer`: iterate the tar entries in order, stopping at the
first error. -/
def extractLayer (destPath : Str) (fs : FS) : List TarEntry →
    Except Str FS
  | [] => .ok fs
  | e :: rest =>
    match extractEntry destPath fs e with
    | .error err => .error err
    | .ok fs' => extractLayer destPath fs' rest

/-- `Manager.Unpack` applied to already-loaded layers: create the
destination directory, then extract each layer in order. -/
def unpackLayers (destPath : Str) (layers : List (List TarEntry)) :
    Except Str FS :=
  match mkdirAll [] destPath with
  | .error err => .error err
  | .ok fs0 => go fs0 layers
where
  go : FS → List (List TarEntry) → Except Str FS
    | fs, [] => .ok fs
    | fs, l :: rest =>
      match extractLayer destPath fs l with
      | .error err => .error err
      | .ok fs' => go fs' rest

/-! ## Helper lemmas -/

theorem getVM_eq_error {vms : List VMRec} {id : Str}
    (h : ∀ w ∈ vms, w.id ≠ id) :
    getVM vms id = .error (notFoundMsg id) := by
  induction vms with
  | nil => rfl
  | cons v rest ih =>
    have hv : v.id ≠ id := h v (by simp)
    have hr : ∀ w ∈ rest, w.id ≠ id := fun w hw => h w (by simp [hw])
    simp only [getVM, List.find?, decide_eq_false hv] at ih ⊢
    exact ih hr

theorem getVM_append_fresh {vms : List VMRec} {id : Str}
    (h : ∀ w ∈ vms, w.id ≠ id) (l2 : List VMRec) :
    getVM (vms ++ l2) id = getVM l2 id := by
  induction vms with
  | nil => rfl
  | cons v rest ih =>
    have hv : v.id ≠ id := h v (by simp)
    have hr : ∀ w ∈ rest, w.id ≠ id := fun w hw => h w (by simp [hw])
    simp only [getVM, List.cons_append, List.find?, decide_eq_false hv]
      at ih ⊢
    exact ih hr

theorem removeVM_fresh_filter {vms : List VMRec} {id : Str}
    (h : ∀ w ∈ vms, w.id ≠ id) :
    vms.filter (fun vm => vm.id ≠ id) = vms := by
  rw [List.filter_eq_self]
  intro v hv
  simpa using h v hv

theorem updateVMState_eq_error {vms : List VMRec} {id st : Str}
    (h : ∀ w ∈ vms, w.id ≠ id) :
    updateVMState vms id st = .error (notFoundMsg id) := by
  induction vms with
  | nil => rfl
  | cons v rest ih =>
    have hv : v.id ≠ id := h v (by simp)
    have hr : ∀ w ∈ rest, w.id ≠ id := fun w hw => h w (by simp [hw])
    simp only [updateVMState, if_neg hv]
    rw [ih hr]

theorem updateVMState_twice (vms : List VMRec) (id st : Str) :
    (updateVMState vms id st).bind (fun l => updateVMState l id st) =
      updateVMState vms id st := by
  induction vms with
  | nil => rfl
  | cons v rest ih =>
    by_cases hv : v.id = id
    · subst hv
      simp [updateVMState, Except.bind]
    · simp only [updateVMState, if_neg hv]
      cases hrest : updateVMState rest id st with
      | error e => rfl
      | ok rest' =>
        rw [hrest] at ih
        simp only [Except.bind] at ih ⊢
        simp only [updateVMState, if_neg hv]
        cases hrest' : updateVMState rest' id st with
        | error e => rw [hrest'] at ih; simp at ih
        | ok rest'' =>
          rw [hrest'] at ih
          simp only [Except.ok.injEq] at ih ⊢
          rw [ih]

/-- A concrete VM record used by counterexamples and witnesses. -/
def sampleVM : VMRec :=
  ⟨"vm-0001".toList, "alpine:latest".toList, "Running".toList, 4242,
    "/tmp/firecracker-vm-0001.sock".toList, "/tmp/rootfs-vm-0001".toList,
    "/opt/kernel/vmlinux".toList, 1700000000⟩

/-! ## Claim theorems: registry -/

/-- C3 counterexample: adding a record whose id already occurs in the
registry does NOT fail with AlreadyExists — `AddVM` performs no duplicate
check — and it changes the stored sequence by appending a second record
with the same id. -/
theorem addVM_duplicate_id_appends_counterexample :
    ([sampleVM].any fun w => w.id = sampleVM.id) = true ∧
      addVM [sampleVM] sampleVM = .ok [sampleVM, sampleVM] := by
  constructor
  · simp
  · rfl

/-- C3 (amended): `AddVM` appends the record at the end unconditionally,
whether or not its id already occurs; duplicate ids are never rejected. -/
theorem addVM_always_appends :
    ∀ (vms : List VMRec) (v : VMRec), addVM vms v = .ok (vms ++ [v]) :=
  fun _ _ => rfl

/-- C4 counterexample: the file-operation trace of a registry save is a
single direct write to the registry path itself; it contains no rename
(and touches no sibling temporary path), refuting the atomic
temp-write-then-rename claim. -/
theorem saveVMs_no_rename_counterexample :
    saveVMsOps "vms.json".toList "[]".toList =
        [FileOp.write "vms.json".toList "[]".toList] ∧
      (saveVMsOps "vms.json".toList "[]".toList).any FileOp.isRename =
        false := by
  exact ⟨rfl, rfl⟩

/-- C4 (amended): every registry save issues exactly one direct
`WriteFile` to the registry path, with no rename step; consequently an
execution interrupted mid-write can leave the file holding a strict,
non-empty prefix of the document — a partially written registry. -/
theorem saveVMs_direct_write_not_atomic :
    ∀ (p data : Str), 2 ≤ data.length →
      saveVMsOps p data = [FileOp.write p data] ∧
      (∀ op ∈ saveVMsOps p data, op.isRename = false) ∧
      ∃ c ∈ directWriteCrashContents data, c ≠ [] ∧ c ≠ data := by
  intro p data hlen
  refine ⟨rfl, ?_, ?_⟩
  · intro op hop
    simp only [saveVMsOps, List.mem_singleton] at hop
    subst hop
    rfl
  · refine ⟨data.take 1, ?_, ?_, ?_⟩
    · simp only [directWriteCrashContents, List.mem_map]
      exact ⟨1, by simp; omega, rfl⟩
    · have : (data.take 1).length = 1 := by
        simp [List.length_take]; omega
      intro hc
      rw [hc] at this
      simp at this
    · intro hc
      have := congrArg List.length hc
      simp [List.length_take] at this
      omega

/-- C4 witness for `saveVMs_direct_write_not_atomic` at a concrete path
and document. -/
theorem saveVMs_direct_write_not_atomic_witness :
    saveVMsOps "vms.json".toList "[]".toList =
        [FileOp.write "vms.json".toList "[]".toList] ∧
      (∀ op ∈ saveVMsOps "vms.json".toList "[]".toList,
        op.isRename = false) ∧
      ∃ c ∈ directWriteCrashContents "[]".toList,
        c ≠ [] ∧ c ≠ "[]".toList :=
  saveVMs_direct_write_not_atomic "vms.json".toList "[]".toList (by decide)

/-- C5 counterexample: after a successful `StopVM` has removed the
record, a repeated `StopVM` with the same id does NOT succeed — it fails
with a VM-not-found error. -/
theorem stopVM_not_idempotent_counterexample :
    stopVM (fun _ => false) [sampleVM] sampleVM.id = .ok [] ∧
      stopVM (fun _ => false) [] sampleVM.id =
        .error ("VM not found: ".toList ++ notFoundMsg sampleVM.id) := by
  constructor
  · rfl
  · rfl

/-- C5 (amended): a successful `StopVM(id)` removes every record with
that id, and a repeated `StopVM(id)` then fails with a VM-not-found
error — `StopVM` is not idempotent. -/
theorem stopVM_second_call_fails :
    ∀ (pr : Int → Bool) (vms : List VMRec) (id : Str)
      (vms' : List VMRec),
      stopVM pr vms id = .ok vms' →
      (∀ w ∈ vms', w.id ≠ id) ∧
      ∀ pr' : Int → Bool,
        stopVM pr' vms' id =
          .error ("VM not found: ".toList ++ notFoundMsg id) := by
  intro pr vms id vms' hok
  simp only [stopVM] at hok
  cases hget : getVM vms id with
  | error e => rw [hget] at hok; exact absurd hok (by simp)
  | ok vm =>
    rw [hget] at hok
    simp only [removeVM] at hok
    by_cases hany : vms.any (fun vm => vm.id = id)
    · rw [if_pos hany] at hok
      have hv' : vms' = vms.filter (fun vm => vm.id ≠ id) := by
        cases hok; rfl
      have hfresh : ∀ w ∈ vms', w.id ≠ id := by
        intro w hw
        rw [hv'] at hw
        have := List.of_mem_filter hw
        simpa using this
      refine ⟨hfresh, ?_⟩
      intro pr'
      simp only [stopVM, getVM_eq_error hfresh]
    · rw [if_neg hany] at hok
      exact absurd hok (by simp)

/-- C5 witness for `stopVM_second_call_fails`: stopping the only record
succeeds and the repeated stop fails with the not-found error. -/
theorem stopVM_second_call_fails_witness :
    (∀ w ∈ ([] : List VMRec), w.id ≠ sampleVM.id) ∧
      ∀ pr' : Int → Bool,
        stopVM pr' [] sampleVM.id =
          .error ("VM not found: ".toList ++ notFoundMsg sampleVM.id) :=
  stopVM_second_call_fails (fun _ => false) [sampleVM] sampleVM.id []
    (by rfl)

/-- C6: registry round-trip laws. After adding a record with a fresh id,
`GetVM` returns it; after adding then removing it, the registry equals
the original and `GetVM` fails with the not-found error; two sequential
`UpdateVMState` calls with the same arguments equal one; and `GetVM`,
`RemoveVM` and `UpdateVMState` all fail with the not-found error when no
record carries the id. -/
theorem registry_roundtrip_laws :
    ∀ (vms : List VMRec) (v : VMRec) (id st : Str),
      ((∀ w ∈ vms, w.id ≠ v.id) →
        (addVM vms v).bind (fun l => getVM l v.id) = .ok v) ∧
      ((∀ w ∈ vms, w.id ≠ v.id) →
        (addVM vms v).bind (fun l => removeVM l v.id) = .ok vms ∧
        getVM vms v.id = .error (notFoundMsg v.id)) ∧
      ((updateVMState vms id st).bind (fun l => updateVMState l id st) =
        updateVMState vms id st) ∧
      ((∀ w ∈ vms, w.id ≠ id) →
        getVM vms id = .error (notFoundMsg id) ∧
        removeVM vms id = .error (notFoundMsg id) ∧
        updateVMState vms id st = .error (notFoundMsg id)) := by
  intro vms v id st
  refine ⟨?_, ?_, updateVMState_twice vms id st, ?_⟩
  · intro h
    show getVM (vms ++ [v]) v.id = .ok v
    rw [getVM_append_fresh h]
    simp [getVM, List.find?]
  · intro h
    constructor
    · show removeVM (vms ++ [v]) v.id = .ok vms
      have hany : (vms ++ [v]).any (fun vm => vm.id = v.id) = true := by
        simp
      simp only [removeVM, hany, if_true, List.filter_append]
      rw [removeVM_fresh_filter h]
      simp [List.filter]
    · exact getVM_eq_error h
  · intro h
    have hany : vms.any (fun vm => vm.id = id) = false := by
      simp only [List.any_eq_false, decide_eq_true_eq]
      exact h
    refine ⟨getVM_eq_error h, ?_, updateVMState_eq_error h⟩
    simp [removeVM, hany]

/-- C6 witness for `registry_roundtrip_laws` on the empty registry and a
concrete record, discharging every freshness hypothesis. -/
theorem registry_roundtrip_laws_witness :
    ((addVM [] sampleVM).bind (fun l => getVM l sampleVM.id) =
        .ok sampleVM) ∧
      ((addVM [] sampleVM).bind (fun l => removeVM l sampleVM.id) =
          .ok [] ∧
        getVM [] sampleVM.id = .error (notFoundMsg sampleVM.id)) ∧
      (getVM [] sampleVM.id = .error (notFoundMsg sampleVM.id) ∧
        removeVM [] sampleVM.id = .error (notFoundMsg sampleVM.id) ∧
        updateVMState [] sampleVM.id "Dead".toList =
          .error (notFoundMsg sampleVM.id)) := by
  have h := registry_roundtrip_laws [] sampleVM sampleVM.id "Dead".toList
  exact ⟨h.1 (by simp), h.2.1 (by simp), h.2.2.2 (by simp)⟩

/-! ## Claim theorems: VM controller -/

theorem connectAttempts_all_fail {dialOk : Nat → Bool}
    (h : ∀ n, dialOk n = false) :
    ∀ (fuel a : Nat),
      connectAttempts dialOk a fuel = .error agentExhaustedMsg := by
  intro fuel
  induction fuel with
  | zero => intro a; rfl
  | succ f ih =>
    intro a
    simp only [connectAttempts, h a, if_false]
    exact ih (a + 1)

/-- C2 counterexample: with network, pull, unpack and launch all
succeeding and every agent-dial attempt failing, `RunVM` returns the
agent-connection error and leaves no record in the registry — but the
Firecracker process is still running when `RunVM` returns (the
dial-failure branch never stops it), refuting the claim that the process
is no longer running. -/
theorem runVM_leaves_process_running_counterexample :
    (runVM ⟨true, true, true, true, fun _ => false, true, true⟩
        "vm-0001".toList []).result =
      .error ("failed to connect to agent: ".toList ++
        agentExhaustedMsg) ∧
    (runVM ⟨true, true, true, true, fun _ => false, true, true⟩
        "vm-0001".toList []).registry = [] ∧
    (runVM ⟨true, true, true, true, fun _ => false, true, true⟩
        "vm-0001".toList []).fcRunning = true := by
  refine ⟨?_, ?_, ?_⟩ <;> rfl

/-- C2 (amended): when every agent-dial attempt fails (constants: 30
attempts, 1 s interval, 5 s per-attempt timeout), `RunVM` returns the
agent-unreachable error and the registry is untouched (so no record with
the fresh id exists), the network is torn down and the unpacked rootfs
removed — but the Firecracker process launched for the VM is left
running: the dial-failure branch performs no `client.Stop()`. -/
theorem runVM_agent_unreachable_behavior :
    ∀ (env : RunEnv) (vmID : Str) (reg : List Str),
      env.networkOk = true → env.pullOk = true → env.unpackOk = true →
      env.launchOk = true → (∀ n, env.dialOk n = false) →
      runVM env vmID reg =
        ⟨.error ("failed to connect to agent: ".toList ++
            agentExhaustedMsg), false, false, true, reg⟩ ∧
      maxRetries = 30 ∧ retryIntervalSeconds = 1 ∧
      connectionTimeoutSeconds = 5 := by
  intro env vmID reg hn hp hu hl hd
  refine ⟨?_, rfl, rfl, rfl⟩
  simp only [runVM, hn, hp, hu, hl, Bool.not_true, Bool.false_eq_true,
    if_false, connectToAgent, connectAttempts_all_fail hd]

/-- C2 witness for `runVM_agent_unreachable_behavior` at a concrete
environment whose dial oracle always fails. -/
theorem runVM_agent_unreachable_behavior_witness :
    runVM ⟨true, true, true, true, fun _ => false, true, true⟩
        "vm-0001".toList [] =
      ⟨.error ("failed to connect to agent: ".toList ++
          agentExhaustedMsg), false, false, true, []⟩ ∧
      maxRetries = 30 ∧ retryIntervalSeconds = 1 ∧
      connectionTimeoutSeconds = 5 :=
  runVM_agent_unreachable_behavior
    ⟨true, true, true, true, fun _ => false, true, true⟩
    "vm-0001".toList [] rfl rfl rfl rfl (fun _ => rfl)

/-! ## Claim theorems: layer extraction and whiteouts -/

/-- C1 counterexample: the first layer creates regular file `a`, the
second layer carries the whiteout entry `.wh.a`.  After `Unpack`, `a` is
still present in the destination — the whiteout deleted nothing (it is
merely skipped), refuting the claimed deletion semantics.  The whiteout
entry itself is not materialized. -/
theorem whiteout_does_not_delete_counterexample :
    unpackLayers "/dst".toList
        [[⟨"a".toList, TarType.reg, "x".toList, []⟩],
         [⟨".wh.a".toList, TarType.reg, [], []⟩]] =
      .ok [("/dst".toList, FSEntry.dir),
           ("/dst/a".toList, FSEntry.file "x".toList)] ∧
    fsGet [("/dst".toList, FSEntry.dir),
           ("/dst/a".toList, FSEntry.file "x".toList)]
        "/dst/a".toList = some (FSEntry.file "x".toList) ∧
    fsGet [("/dst".toList, FSEntry.dir),
           ("/dst/a".toList, FSEntry.file "x".toList)]
        "/dst/.wh.a".toList = none := by
  refine ⟨?_, ?_, ?_⟩ <;> rfl

/-- C1 (amended): any tar entry whose name contains `.wh.` is skipped
outright by `extractLayer`: it is never materialized in the destination
and has no effect at all on the extracted tree — no sibling deletion and
no opaque-directory clearing — so files created by earlier layers survive
a later layer's whiteout. -/
theorem extractEntry_whiteout_skipped :
    ∀ (destPath : Str) (fs : FS) (e : TarEntry),
      listContainsSub e.name ".wh.".toList = true →
      extractEntry destPath fs e = .ok fs := by
  intro d fs e h
  have h' : listContainsSub e.name ['.', 'w', 'h', '.'] = true := by
    simpa using h
  simp [extractEntry, h']

/-- C1 witness for `extractEntry_whiteout_skipped` on a concrete whiteout
entry. -/
theorem extractEntry_whiteout_skipped_witness :
    extractEntry "/dst".toList []
        ⟨".wh.a".toList, TarType.reg, [], []⟩ = .ok [] :=
  extractEntry_whiteout_skipped "/dst".toList []
    ⟨".wh.a".toList, TarType.reg, [], []⟩ (by decide)

/-! ## Claim theorems: port mapping parsing -/

/-- Whether an `Except` value is a success. -/
def exceptIsOk {ε α : Type} : Except ε α → Bool
  | .ok _ => true
  | .error _ => false

/-- Specification predicate: a string of the form `host:guest` with both
sides accepted by `strconv.Atoi`. -/
def validPortMapping (s : Str) : Bool :=
  match splitOnChar ':' s with
  | [a, b] => (atoi a).isSome && (atoi b).isSome
  | _ => false

/-- Left-biased choice on optional ports. -/
def optOr (a b : Option Int) : Option Int :=
  match a with
  | some x => some x
  | none => b

theorem parsePortMappingsGo_isOk :
    ∀ (ms : List Str) (acc : List (Int × Int)),
      exceptIsOk (parsePortMappingsGo ms acc) =
        ms.all validPortMapping := by
  intro ms
  induction ms with
  | nil => intro acc; rfl
  | cons s rest ih =>
    intro acc
    simp only [parsePortMappingsGo, List.all_cons, validPortMapping]
    cases hs : splitOnChar ':' s with
    | nil => rfl
    | cons a t =>
      cases t with
      | nil => rfl
      | cons b t2 =>
        cases t2 with
        | cons c t3 => rfl
        | nil =>
          cases ha : atoi a with
          | none => simp [ha, exceptIsOk]
          | some hp =>
            cases hb : atoi b with
            | none => simp [ha, hb, exceptIsOk]
            | some gp => simp [ha, hb, ih]

theorem mapGet_mapSet :
    ∀ (acc : List (Int × Int)) (h g k : Int),
      mapGet (mapSet acc h g) k =
        if h = k then some g else mapGet acc k := by
  intro acc h g k
  induction acc with
  | nil => simp [mapSet, mapGet]
  | cons p rest ih =>
    obtain ⟨k', v'⟩ := p
    by_cases hk : k' = h
    · subst hk
      by_cases hq : k' = k
      · subst hq; simp [mapSet, mapGet]
      · simp [mapSet, mapGet, hq]
    · by_cases hq : k' = k
      · subst hq
        have : ¬ h = k' := fun hh => hk hh.symm
        simp [mapSet, mapGet, hk, this]
      · simp [mapSet, mapGet, hk, hq, ih]

theorem parsePortMappingsGo_get :
    ∀ (ms : List Str) (acc m : List (Int × Int)),
      parsePortMappingsGo ms acc = .ok m →
      ∀ k, mapGet m k = optOr (lastHostDef ms k) (mapGet acc k) := by
  intro ms
  induction ms with
  | nil =>
    intro acc m hok k
    cases hok
    rfl
  | cons s rest ih =>
    intro acc m hok k
    cases hs : splitOnChar ':' s with
    | nil => simp [parsePortMappingsGo, hs] at hok
    | cons a t =>
      cases t with
      | nil => simp [parsePortMappingsGo, hs] at hok
      | cons b t2 =>
        cases t2 with
        | cons c t3 => simp [parsePortMappingsGo, hs] at hok
        | nil =>
          cases ha : atoi a with
          | none => simp [parsePortMappingsGo, hs, ha] at hok
          | some hp =>
            cases hb : atoi b with
            | none => simp [parsePortMappingsGo, hs, ha, hb] at hok
            | some gp =>
              simp only [parsePortMappingsGo, hs, ha, hb] at hok
              have hm := ih (mapSet acc hp gp) m hok k
              rw [hm, mapGet_mapSet]
              simp only [lastHostDef, hs, ha, hb]
              cases lastHostDef rest k with
              | some g' => simp [optOr]
              | none =>
                by_cases hpk : hp = k
                · simp [optOr, hpk]
                · simp [optOr, hpk]

/-- C8: `parsePortMappings` succeeds exactly when every input string
splits on `:` into two integer-parseable fields; it rejects `8080`,
`abc:80`, `8080:def` and `8080:80:90` and accepts `8080:80` and
`443:443`; and on success a host port maps to the guest port of its LAST
occurrence in the input list. -/
theorem parsePortMappings_spec :
    ∀ (ms : List Str) (m : List (Int × Int)) (k : Int),
      (exceptIsOk (parsePortMappings ms) = ms.all validPortMapping) ∧
      (parsePortMappings ms = .ok m → mapGet m k = lastHostDef ms k) ∧
      parsePortMappings ["8080".toList] =
        .error ("invalid port mapping format: ".toList ++
          "8080".toList) ∧
      parsePortMappings ["abc:80".toList] =
        .error ("invalid host port: ".toList ++ "abc".toList) ∧
      parsePortMappings ["8080:def".toList] =
        .error ("invalid guest port: ".toList ++ "def".toList) ∧
      parsePortMappings ["8080:80:90".toList] =
        .error ("invalid port mapping format: ".toList ++
          "8080:80:90".toList) ∧
      parsePortMappings ["8080:80".toList] = .ok [(8080, 80)] ∧
      parsePortMappings ["443:443".toList] = .ok [(443, 443)] := by
  intro ms m k
  refine ⟨parsePortMappingsGo_isOk ms [], ?_, by decide, by decide,
    by decide, by decide, by decide, by decide⟩
  intro hok
  have := parsePortMappingsGo_get ms [] m hok k
  rw [this]
  cases lastHostDef ms k with
  | some g => rfl
  | none => rfl

/-- C8 witness for `parsePortMappings_spec`: a duplicated host port
resolves to its last definition. -/
theorem parsePortMappings_spec_witness :
    mapGet [((8080 : Int), (90 : Int))] 8080 =
      lastHostDef ["8080:80".toList, "8080:90".toList] 8080 :=
  (parsePortMappings_spec ["8080:80".toList, "8080:90".toList]
      [(8080, 90)] 8080).2.1 (by decide)

theorem parseDigitsGo_digits :
    ∀ (l : Str) (acc n : Nat), parseDigits.go l acc = some n →
      ∀ c ∈ l, c.isDigit = true := by
  intro l
  induction l with
  | nil => intro acc n _ c hc; exact absurd hc (by simp)
  | cons d rest ih =>
    intro acc n hgo c hc
    simp only [parseDigits.go, digitVal] at hgo
    by_cases hd : d.isDigit
    · rw [if_pos hd] at hgo
      rcases List.mem_cons.mp hc with hcd | hcr
      · subst hcd; exact hd
      · exact ih _ n hgo c hcr
    · rw [if_neg hd] at hgo
      exact absurd hgo (by simp)

theorem parseDigits_digits (l : Str) (n : Nat) (h : parseDigits l = some n) :
    ∀ c ∈ l, c.isDigit = true := by
  cases l with
  | nil => exact absurd h (by simp [parseDigits])
  | cons d rest =>
    exact parseDigitsGo_digits (d :: rest) 0 n
      (by simpa [parseDigits] using h)

theorem atoi_chars (s : Str) (x : Int) (hs : atoi s = some x) :
    ∀ c ∈ s, c ≠ ':' := by
  have colonNotDigit : (':').isDigit = false := by decide
  cases s with
  | nil => intro c hc; exact absurd hc (by simp)
  | cons c0 rest =>
    intro c hc hcol
    subst hcol
    have digitsNoColon : ∀ (l : Str) (m : Nat),
        parseDigits l = some m → (':') ∈ l → False := by
      intro l m hl hmem
      have := parseDigits_digits l m hl ':' hmem
      rw [colonNotDigit] at this
      exact absurd this (by simp)
    simp only [atoi] at hs
    by_cases h0 : c0 = '+'
    · rw [if_pos h0] at hs
      rcases List.mem_cons.mp hc with hcd | hcr
      · rw [h0] at hcd; exact absurd hcd (by decide)
      · cases hpd : parseDigits rest with
        | none => rw [hpd] at hs; exact absurd hs (by simp)
        | some n => exact digitsNoColon rest n hpd hcr
    · rw [if_neg h0] at hs
      by_cases h1 : c0 = '-'
      · rw [if_pos h1] at hs
        rcases List.mem_cons.mp hc with hcd | hcr
        · rw [h1] at hcd; exact absurd hcd (by decide)
        · cases hpd : parseDigits rest with
          | none => rw [hpd] at hs; exact absurd hs (by simp)
          | some n => exact digitsNoColon rest n hpd hcr
      · rw [if_neg h1] at hs
        cases hpd : parseDigits (c0 :: rest) with
        | none => rw [hpd] at hs; exact absurd hs (by simp)
        | some n => exact digitsNoColon (c0 :: rest) n hpd hc

theorem splitOnChar_no_sep (sep : Char) :
    ∀ (s : Str), (∀ c ∈ s, c ≠ sep) → splitOnChar sep s = [s] := by
  intro s
  induction s with
  | nil => intro _; rfl
  | cons c rest ih =>
    intro h
    have hc : c ≠ sep := h c (by simp)
    have hr : ∀ x ∈ rest, x ≠ sep := fun x hx => h x (by simp [hx])
    simp only [splitOnChar, if_neg hc, ih hr]

theorem splitOnChar_append (sep : Char) :
    ∀ (a b : Str), (∀ c ∈ a, c ≠ sep) →
      splitOnChar sep (a ++ sep :: b) = a :: splitOnChar sep b := by
  intro a
  induction a with
  | nil =>
    intro b _
    simp [splitOnChar]
  | cons c rest ih =>
    intro b h
    have hc : c ≠ sep := h c (by simp)
    have hr : ∀ x ∈ rest, x ≠ sep := fun x hx => h x (by simp [hx])
    have step : splitOnChar sep ((c :: rest) ++ sep :: b) =
        match splitOnChar sep (rest ++ sep :: b) with
        | [] => [[c]]
        | p :: ps => (c :: p) :: ps := by
      simp only [List.cons_append, splitOnChar, if_neg hc]
      rfl
    rw [step, ih b hr]

/-- C10: `parsePortMappings` performs no range validation — for any two
strings accepted by `strconv.Atoi` (including zero, negatives, values
above 65535, and values with a leading sign), the mapping `a:b` parses
successfully and the resulting map sends the host value to the guest
value. -/
theorem parsePortMappings_no_range_validation :
    ∀ (a b : Str) (x y : Int),
      atoi a = some x → atoi b = some y →
      parsePortMappings [a ++ ':' :: b] = .ok [(x, y)] ∧
      mapGet [(x, y)] x = some y := by
  intro a b x y ha hb
  have hsplit : splitOnChar ':' (a ++ ':' :: b) = [a, b] := by
    rw [splitOnChar_append ':' a b (atoi_chars a x ha)]
    rw [splitOnChar_no_sep ':' b (atoi_chars b y hb)]
  constructor
  · simp only [parsePortMappings, parsePortMappingsGo, hsplit, ha, hb]
    rfl
  · simp [mapGet]

/-- C10 witness for `parsePortMappings_no_range_validation`: a negative
host port and a guest port above 65535 are both accepted. -/
theorem parsePortMappings_no_range_validation_witness :
    parsePortMappings ["-3".toList ++ ':' :: "+70000".toList] =
        .ok [((-3 : Int), (70000 : Int))] ∧
      mapGet [((-3 : Int), (70000 : Int))] (-3) = some 70000 :=
  parsePortMappings_no_range_validation "-3".toList "+70000".toList
    (-3) 70000 (by decide) (by decide)

/-! ## Claim theorems: VM id hashing and network setup -/

theorem hashGo_bounds :
    ∀ (l : Str) (h : Int), 0 ≤ h → h ≤ 253 →
      0 ≤ hashVMID.go l h ∧ hashVMID.go l h ≤ 253 := by
  intro l
  induction l with
  | nil => intro h h0 h1; exact ⟨h0, h1⟩
  | cons c rest ih =>
    intro h h0 h1
    apply ih
    · refine Int.tmod_nonneg _ ?_
      have h31 : (0 : Int) ≤ h * 31 := by nlinarith
      have hc : (0 : Int) ≤ Int.ofNat c.toNat := Int.ofNat_nonneg _
      omega
    · have := Int.tmod_lt_of_pos (h * 31 + Int.ofNat c.toNat)
        (b := 254) (by norm_num)
      omega

theorem hashVMID_bounds (id : Str) :
    0 ≤ hashVMID id ∧ hashVMID id ≤ 253 := by
  have h := hashGo_bounds id 0 (by norm_num) (by norm_num)
  simp only [hashVMID]
  rw [if_neg (by omega)]
  exact h

theorem vmIndexOf_eq (id : Str) : vmIndexOf id = hashVMID id + 1 := by
  have h := hashVMID_bounds id
  simp only [vmIndexOf]
  rw [Int.tmod_eq_emod h.1 (by norm_num), Int.emod_eq_of_lt h.1 (by omega)]

/-- C9: `hashVMID` is deterministic and its result lies in `[0, 253]`;
`Setup` computes the index `i = hashVMID(id) % 254 + 1 = hashVMID(id)+1`
in `[1, 254]`, guest address `172.18.i.2`, gateway `172.18.i.1`, the
locally-administered MAC `02:FC:00:00:i:i` (hex), and — when the id has
at least 8 characters — the tap name `tap-` followed by the id's first 8
characters. -/
theorem hashVMID_setup_spec :
    ∀ (id id2 : Str) (pm : List Str) (cfg : NetConfig),
      (id = id2 → hashVMID id = hashVMID id2) ∧
      0 ≤ hashVMID id ∧ hashVMID id ≤ 253 ∧
      (setupConfig id pm = .ok cfg →
        vmIndexOf id = hashVMID id + 1 ∧
        1 ≤ vmIndexOf id ∧ vmIndexOf id ≤ 254 ∧
        cfg.guestIP = "172.18.".toList ++
          natDec (vmIndexOf id).toNat ++ ".2".toList ∧
        cfg.gatewayIP = "172.18.".toList ++
          natDec (vmIndexOf id).toNat ++ ".1".toList ∧
        cfg.guestMAC = "02:FC:00:00:".toList ++
          hex2 (vmIndexOf id).toNat ++ [':'] ++
          hex2 (vmIndexOf id).toNat ∧
        (8 ≤ id.length → cfg.tapDevice = "tap-".toList ++ id.take 8)) := by
  intro id id2 pm cfg
  have hb := hashVMID_bounds id
  refine ⟨fun h => by rw [h], hb.1, hb.2, ?_⟩
  intro hset
  have hidx := vmIndexOf_eq id
  simp only [setupConfig] at hset
  cases hpm : parsePortMappings pm with
  | error e => rw [hpm] at hset; exact absurd hset (by simp)
  | ok pmv =>
    rw [hpm] at hset
    have hcfg := (Except.ok.injEq _ _).mp hset
    refine ⟨hidx, by omega, by omega, ?_, ?_, ?_, fun _ => ?_⟩ <;>
      rw [← hcfg] <;> rfl

/-- C9 witness for `hashVMID_setup_spec` at the concrete id
`abcdefgh`, whose hash is 214 and index 215. -/
theorem hashVMID_setup_spec_witness :
    hashVMID "abcdefgh".toList = hashVMID "abcdefgh".toList ∧
    0 ≤ hashVMID "abcdefgh".toList ∧
    hashVMID "abcdefgh".toList ≤ 253 ∧
    vmIndexOf "abcdefgh".toList =
      hashVMID "abcdefgh".toList + 1 ∧
    1 ≤ vmIndexOf "abcdefgh".toList ∧
    vmIndexOf "abcdefgh".toList ≤ 254 ∧
    "172.18.215.2".toList = "172.18.".toList ++
      natDec (vmIndexOf "abcdefgh".toList).toNat ++ ".2".toList ∧
    "tap-abcdefgh".toList =
      "tap-".toList ++ "abcdefgh".toList.take 8 := by
  have h := hashVMID_setup_spec "abcdefgh".toList "abcdefgh".toList []
    { vmID := "abcdefgh".toList
      tapDevice := "tap-abcdefgh".toList
      guestIP := "172.18.215.2".toList
      gatewayIP := "172.18.215.1".toList
      mask := "24".toList
      guestMAC := "02:FC:00:00:d7:d7".toList
      portMappings := [] }
  have hset := h.2.2.2 (by decide)
  exact ⟨h.1 rfl, h.2.1, h.2.2.1, hset.1, hset.2.1, hset.2.2.1,
    hset.2.2.2.1, hset.2.2.2.2.2.2 (by decide)⟩

/-! ## Claim theorems: image store pull -/

theorem storeGet_storeSet :
    ∀ (st : ImgStore) (k : Str) (l : List StoredImg),
      storeGet (storeSet st k l) k = some l := by
  intro st k l
  induction st with
  | nil => simp [storeSet, storeGet, List.find?]
  | cons p rest ih =>
    obtain ⟨k', v'⟩ := p
    by_cases hk : k' = k
    · subst hk; simp [storeSet, storeGet, List.find?]
    · simp only [storeSet, if_neg hk]
      simp only [storeGet, List.find?, decide_eq_false hk] at ih ⊢
      exact ih

/-- C7: `PullImage` is idempotent and locally served.  When the image is
already stored locally (`GetImage` succeeds), `PullImage` performs zero
network fetches, leaves the store unchanged, and returns the stored view;
and after any successful `PullImage`, pulling the same reference again
performs zero network fetches and returns an equal view. -/
theorem pullImage_idempotent_local :
    ∀ (parseOk : Str → Bool) (remote : Str → Option StoredImg)
      (st : ImgStore) (r : Str) (v : ImgView),
      (parseOk r = true → getImage st r = .ok v →
        pullImage parseOk remote st r = (.ok v, st, 0)) ∧
      (∀ (st' : ImgStore) (n : Nat),
        pullImage parseOk remote st r = (.ok v, st', n) →
        pullImage parseOk remote st' r = (.ok v, st', 0)) := by
  intro parseOk remote st r v
  constructor
  · intro hp hg
    simp [pullImage, hp, hg]
  · intro st' n hpull
    simp only [pullImage] at hpull
    by_cases hp : parseOk r
    · rw [hp] at hpull
      simp only [Bool.not_true, Bool.false_eq_true, if_false] at hpull
      cases hg : getImage st r with
      | ok v0 =>
        rw [hg] at hpull
        simp only [Prod.mk.injEq, Except.ok.injEq] at hpull
        obtain ⟨hv, hst, -⟩ := hpull
        subst hv
        subst hst
        simp [pullImage, hp, hg]
      | error e =>
        rw [hg] at hpull
        cases hrem : remote r with
        | none => rw [hrem] at hpull; simp at hpull
        | some img =>
          rw [hrem] at hpull
          simp only [Prod.mk.injEq, Except.ok.injEq] at hpull
          obtain ⟨hv, hst, -⟩ := hpull
          have hold : (storeGet st (sanitizeLayoutKey r)).getD [] = [] := by
            simp only [getImage] at hg
            cases hsg : storeGet st (sanitizeLayoutKey r) with
            | none => rfl
            | some l =>
              cases l with
              | nil => rfl
              | cons i t => rw [hsg] at hg; exact absurd hg (by simp)
          have hget' : getImage st' r = .ok v := by
            rw [← hst]
            simp only [getImage, storeGet_storeSet, hold, List.nil_append]
            rw [hv]
          simp [pullImage, hp, hget']
    · simp only [hp] at hpull
      simp at hpull

/-- C7 witness for `pullImage_idempotent_local`: pulling a reference whose
layout is already stored performs zero network fetches and returns the
stored view unchanged. -/
theorem pullImage_idempotent_local_witness :
    pullImage (fun _ => true) (fun _ => none)
        [("alpine_3".toList,
          [⟨"sha256:abc".toList, ["sha256:l1".toList]⟩])]
        "alpine:3".toList =
      (.ok ⟨"alpine:3".toList, "sha256:abc".toList,
          ["sha256:l1".toList]⟩,
        [("alpine_3".toList,
          [⟨"sha256:abc".toList, ["sha256:l1".toList]⟩])], 0) :=
  (pullImage_idempotent_local (fun _ => true) (fun _ => none)
      [("alpine_3".toList,
        [⟨"sha256:abc".toList, ["sha256:l1".toList]⟩])]
      "alpine:3".toList
      ⟨"alpine:3".toList, "sha256:abc".toList, ["sha256:l1".toList]⟩).1
    rfl (by decide)

end Micropod
